import Mathlib

/-!
Shallow embedding of `scripts/update_telegram_feed.py` (feed generator for a
public Telegram channel): data model, content fingerprint, pagination loop,
translation-cache merge, and JSON serialization, together with theorems about
the merge/fetch pipeline.

External collaborators (HTTP, HTML parsing, the OpenAI and Argos translation
backends, the system clock, the SHA-256 digest) are modelled as explicit
function parameters; everything the script computes itself is translated
directly from the source.
-/

namespace TgFeed

/-- Decimal digit character, `digitChar n = '0' + n` for `n < 10`. -/
def digitChar (n : Nat) : Char := Char.ofNat (48 + n)

/-- Decimal digits with explicit recursion depth (`fuel` bounds the digit
count; any `fuel > log10 n` gives the full decimal form). -/
def natDigitsAux : Nat → Nat → List Char
  | 0, _ => []
  | fuel + 1, n =>
    if n < 10 then [digitChar n]
    else natDigitsAux fuel (n / 10) ++ [digitChar (n % 10)]

/-- Decimal digits of a natural number, most significant first
(mirrors Python `str` on a non-negative `int`); `n + 1` units of fuel
always suffice since the recursion divides by 10. -/
def natDigits (n : Nat) : List Char := natDigitsAux (n + 1) n

/-- Python `str` on an `int`: decimal form, `-` sign for negatives. -/
def pyIntStr (n : Int) : String :=
  match n with
  | Int.ofNat m => String.mk (natDigits m)
  | Int.negSucc m => String.mk ('-' :: natDigits (m + 1))

/-- Python `str` on a `bool` (`True` / `False`). -/
def pyBoolStr (b : Bool) : String := if b then "True" else "False"

/-- Python `str.strip()`: remove leading and trailing whitespace. -/
def pyStrip (s : String) : String :=
  String.mk (((s.data.dropWhile Char.isWhitespace).reverse.dropWhile
    Char.isWhitespace).reverse)

/-- Python `str.lstrip("@")`: remove leading `@` characters. -/
def pyLStripAt (s : String) : String :=
  String.mk (s.data.dropWhile (fun c => c = '@'))

/-- JSON values (numbers restricted to integers, which is all this program
produces or consumes in the fields it reads). -/
inductive Json where
  | null : Json
  | bool (b : Bool) : Json
  | num (n : Int) : Json
  | str (s : String) : Json
  | arr (xs : List Json) : Json
  | obj (fields : List (String × Json)) : Json
  deriving Repr

/-- First-match lookup in a JSON object's field list (Python `dict.get`;
`json.load` produces unique keys). -/
def lookupFields : List (String × Json) → String → Option Json
  | [], _ => none
  | (k', v) :: fs, k => if k' = k then some v else lookupFields fs k

/-- `j.get(k)` on a JSON object; `none` for non-objects or missing keys. -/
def jget : Json → String → Option Json
  | Json.obj fs, k => lookupFields fs k
  | _, _ => none

/-- The value if it is a JSON string (Python `isinstance(x, str)` guard). -/
def asStr : Option Json → Option String
  | some (Json.str s) => some s
  | _ => none

/-- String field of a JSON object, defaulting to `""`. -/
def getStrD (j : Json) (k : String) : String := (asStr (jget j k)).getD ""

/-- Keys of a JSON object, in order. -/
def objKeys : Json → List String
  | Json.obj fs => fs.map Prod.fst
  | _ => []

/-- A post scraped from the channel preview page (dataclass `TgPost`). -/
structure TgPost where
  channel : String
  message_id : Int
  url : String
  date_utc : Option String
  text_ru : String
  images : List String
  deriving Repr, DecidableEq

/-- `TgPost.key`: `f"{channel}/{message_id}"`. -/
def TgPost.key (p : TgPost) : String :=
  p.channel ++ "/" ++ pyIntStr p.message_id

/-- `imagesPart us` is the byte suffix the image loop feeds to the digest:
each URL followed by a newline. -/
def imagesPart : List String → String
  | [] => ""
  | u :: us => u ++ "\n" ++ imagesPart us

/-- The exact byte string `TgPost.content_hash` feeds to SHA-256:
`text_ru`, a newline, `date_utc or ""`, and, only when `images` is
non-empty, a newline followed by each URL terminated by a newline. -/
def hashInput (p : TgPost) : String :=
  p.text_ru ++ "\n" ++ (p.date_utc.getD "") ++
    (if p.images.isEmpty then "" else "\n" ++ imagesPart p.images)

/-- `TgPost.content_hash`: hex digest of `hashInput`. The SHA-256 digest is
an external primitive, passed in as `digest`. -/
def content_hash (digest : String → String) (p : TgPost) : String :=
  digest (hashInput p)

/-- `OPENAI_PROMPT_VERSION` constant from the script. -/
def OPENAI_PROMPT_VERSION : String := "pro_editorial_translator_v1"

/-- The boolean `reuse_translation` computed in `build_feed`: the prior
entry's `hash` is a string equal to the fresh hash, its `text_en` is a
non-blank string, and its `translation_key` is a string equal to the
current run's key. -/
def reuse_translation (translation_key phash : String) (existing : Json) : Bool :=
  (asStr (jget existing "hash") == some phash) &&
  (match asStr (jget existing "text_en") with
   | some t => !(pyStrip t == "")
   | none => false) &&
  (asStr (jget existing "translation_key") == some translation_key)

/-- The boolean `reuse_title` computed in `build_feed`: prior `hash` is a
string equal to the fresh hash and prior `title_en` is a non-blank string
(the translation key is not consulted). -/
def reuse_title (phash : String) (existing : Json) : Bool :=
  (asStr (jget existing "hash") == some phash) &&
  (match asStr (jget existing "title_en") with
   | some t => !(pyStrip t == "")
   | none => false)

/-- The `(title_en, text_en)` pair chosen for one post, plus whether a
translation backend was actually invoked. `openaiFn` abstracts the OpenAI
round trip of `translate_and_format_ru_to_en_openai` (whose result is
stripped and whose title is always empty) and `argosFn` abstracts
`translate_ru_to_en_argos` past its blank-input short-circuit; both
functions are reached only on non-blank input, exactly as in the source. -/
def translationFor (openaiFn argosFn : String → String)
    (translator_effective translation_key phash : String)
    (existing : Json) (text_ru : String) : String × String × Bool :=
  if translator_effective == "none" then ("", "", false)
  else if reuse_translation translation_key phash existing then
    ((if reuse_title phash existing then getStrD existing "title_en" else ""),
     getStrD existing "text_en", false)
  else if translator_effective == "openai" then
    (if pyStrip text_ru == "" then ("", "", false)
     else ("", pyStrip (openaiFn text_ru), true))
  else
    (if pyStrip text_ru == "" then ("", "", false)
     else ("", argosFn text_ru, true))

/-- One iteration of the `for p in posts` loop of `build_feed`: the emitted
entry object and whether a translation backend was invoked. -/
def processPost (openaiFn argosFn : String → String)
    (translator_effective translation_key : String)
    (existing : Json) (phash : String) (p : TgPost) : Json × Bool :=
  let r := translationFor openaiFn argosFn translator_effective translation_key
             phash existing p.text_ru
  (Json.obj
    [("id", Json.num p.message_id),
     ("url", Json.str p.url),
     ("date_utc", match p.date_utc with
                  | some d => Json.str d
                  | none => Json.null),
     ("hash", Json.str phash),
     ("translation_key", Json.str translation_key),
     ("text_ru", Json.str p.text_ru),
     ("images", Json.arr (p.images.map Json.str)),
     ("title_en", Json.str r.1),
     ("text_en", Json.str r.2.1)],
   r.2.2)

/-- One iteration of the `existing_by_id`-building loop of `build_feed`.
Entries that are not objects, or whose `id` is not an `int`/`str`, are
skipped; an assignment overwrites any earlier entry with the same key
(Python dict assignment). A JSON boolean id is a Python `bool`, which
`isinstance(_, int)` accepts, so it is keyed under `str(True)`/`str(False)`. -/
def indexStep (idx : String → Option Json) (e : Json) : String → Option Json :=
  match e with
  | Json.obj _ =>
    match jget e "id" with
    | some (Json.num n) => fun k => if k = pyIntStr n then some e else idx k
    | some (Json.str s) => fun k => if k = s then some e else idx k
    | some (Json.bool b) => fun k => if k = pyBoolStr b then some e else idx k
    | _ => idx
  | _ => idx

/-- The `existing_by_id` dictionary of `build_feed`, as a lookup function
from `str(id)` keys to prior entries. -/
def buildIndex (ps : List Json) : String → Option Json :=
  ps.foldl indexStep (fun _ => none)

/-- The `"posts"` list of the prior feed, or `[]` when missing or not a
list. -/
def existingPosts (existing_feed : List (String × Json)) : List Json :=
  match lookupFields existing_feed "posts" with
  | some (Json.arr xs) => xs
  | _ => []

/-- Effective translator after `auto` resolution: `auto` becomes `openai`
when the API key environment variable is non-blank, else `argos`. -/
def effectiveTranslator (translator : String) (apiKey : Bool) : String :=
  if translator == "auto" then (if apiKey then "openai" else "argos")
  else translator

/-- The run's `translation_key`. -/
def translationKeyOf (translator_effective openai_model : String) : String :=
  if translator_effective == "openai"
  then "openai:" ++ openai_model ++ ":" ++ OPENAI_PROMPT_VERSION
  else translator_effective

/-- `build_feed`: merge fresh posts against the prior feed. Returns the feed
object and the number of translation-backend invocations. `now` is the
value `utc_now_iso()` returns during this run (the wall clock is an
external input). -/
def build_feed (digest openaiFn argosFn : String → String) (apiKey : Bool)
    (now channel : String) (posts : List TgPost)
    (existing_feed : List (String × Json))
    (translator openai_model : String) : Json × Nat :=
  let idx := buildIndex (existingPosts existing_feed)
  let te := effectiveTranslator translator apiKey
  let tk := translationKeyOf te openai_model
  let results := posts.map (fun p =>
    processPost openaiFn argosFn te tk
      ((idx (pyIntStr p.message_id)).getD (Json.obj []))
      (content_hash digest p) p)
  (Json.obj
    [("generated_at_utc", Json.str now),
     ("source", Json.str ("https://t.me/" ++ channel)),
     ("channel", Json.str channel),
     ("posts", Json.arr (results.map Prod.fst))],
   (results.map (fun r => if r.2 then 1 else 0)).sum)

/-- The entry list of a feed object (its `"posts"` array). -/
def entriesOf (j : Json) : List Json :=
  match jget j "posts" with
  | some (Json.arr xs) => xs
  | _ => []

/-- The `?before=` component of the requested URL. Python builds it with
`if before:` (truthiness), so a cursor of `0` produces the same URL as no
cursor at all. -/
def urlBefore : Option Int → Option Int
  | some b => if b = 0 then none else some b
  | none => none

/-- `min(p.message_id for p in page_posts)` (the page is non-empty where
this is evaluated). -/
def minId : List TgPost → Int
  | [] => 0
  | p :: ps => ps.foldl (fun m q => min m q.message_id) p.message_id

/-- One step of the inner `for p in page_posts` loop: skip a post whose key
was already seen, otherwise mark it seen, append it and bump
`new_in_page`. -/
def addPostStep (acc : List String × List TgPost × Nat) (p : TgPost) :
    List String × List TgPost × Nat :=
  if p.key ∈ acc.1 then acc
  else (p.key :: acc.1, acc.2.1 ++ [p], acc.2.2 + 1)

/-- The inner `for p in page_posts` loop of `fetch_latest_posts`: add posts
whose key is unseen, returning the new seen set, the extended accumulator
and `new_in_page`. -/
def addPage (seen : List String) (collected : List TgPost) (page : List TgPost) :
    List String × List TgPost × Nat :=
  page.foldl addPostStep (seen, collected, 0)

/-- The guard `before is not None and oldest_id >= before`. -/
def guardStop (before : Option Int) (oldest : Int) : Bool :=
  match before with
  | some b => b ≤ oldest
  | none => false

/-- The `for _ in range(max_pages)` loop of `fetch_latest_posts`. `pageOf`
abstracts `http_get` + `parse_preview_html` as a function of the request
cursor. Returns the list of request cursors issued (one per page
retrieval) and the accumulated posts. -/
def fetchLoop (pageOf : Option Int → List TgPost) (limit : Nat) :
    Nat → List String → List TgPost → Option Int → List (Option Int) × List TgPost
  | 0, _, collected, _ => ([], collected)
  | fuel + 1, seen, collected, before =>
    let req := urlBefore before
    let page := pageOf req
    if page.isEmpty then ([req], collected)
    else
      let acc := addPage seen collected page
      let oldest := minId page
      if guardStop before oldest then ([req], acc.2.1)
      else if acc.2.2 = 0 then ([req], acc.2.1)
      else if limit ≤ acc.2.1.length then ([req], acc.2.1)
      else
        let rest := fetchLoop pageOf limit fuel acc.1 acc.2.1 (some oldest)
        (req :: rest.1, rest.2)

/-- Descending order on posts by id (the sort key used by
`fetch_latest_posts`). -/
def idGe (a b : TgPost) : Prop := b.message_id ≤ a.message_id

instance : DecidableRel idGe :=
  fun a b => inferInstanceAs (Decidable (b.message_id ≤ a.message_id))

instance : IsTotal TgPost idGe :=
  ⟨fun a b => Int.le_total b.message_id a.message_id⟩

instance : IsTrans TgPost idGe :=
  ⟨fun _ _ _ h1 h2 => le_trans h2 h1⟩

/-- `collected.sort(key=lambda p: p.message_id, reverse=True)`: a stable
descending sort by id. -/
def sortDesc (l : List TgPost) : List TgPost :=
  l.insertionSort idGe

/-- `fetch_latest_posts`: run the pagination loop, sort newest-first and
truncate to `limit`. Also returns the request trace. -/
def fetch_latest_posts (pageOf : Option Int → List TgPost)
    (limit max_pages : Nat) : List (Option Int) × List TgPost :=
  let r := fetchLoop pageOf limit max_pages [] [] none
  (r.1, (sortDesc r.2).take limit)

/-- `CHANNEL_RE`: `^[a-zA-Z0-9_]{5,}$` (ASCII classes; the input has been
stripped of surrounding whitespace before matching, so the `$`-before-
trailing-newline subtlety of Python cannot arise). -/
def validChannel (s : String) : Bool :=
  decide (5 ≤ s.length) && s.data.all (fun c => c.isAlphanum || c = '_')

/-- Command-line arguments relevant to the model (`parse_args`). The output
path, timeout and user agent do not influence any modelled observable. -/
structure Args where
  channel : String
  limit : Int
  max_pages : Int
  translator : String
  openai_model : String

/-- Observable outcome of one run of `main`: the exit code, the pagination
requests issued (network trace), and the feed written to disk, if any. -/
structure RunOutcome where
  exitCode : Nat
  requests : List (Option Int)
  written : Option Json

/-- Environment as `main` observes it: whether `OPENAI_API_KEY` is set and
non-blank, and whether the `argostranslate` import succeeded. -/
structure Env where
  apiKey : Bool
  argosAvailable : Bool

/-- `main`: validate the channel, resolve the translator, check its
prerequisites, then load the prior feed, fetch, merge and write.
`existingOnDisk` is what `load_existing_feed` returns (`{}` on a missing
or unparseable file). -/
def runMain (env : Env) (pageOf : Option Int → List TgPost)
    (digest openaiFn argosFn : String → String) (now : String)
    (existingOnDisk : List (String × Json)) (args : Args) : RunOutcome :=
  let channel := pyLStripAt (pyStrip args.channel)
  if !validChannel channel then ⟨2, [], none⟩
  else
    let te := effectiveTranslator args.translator env.apiKey
    if te == "openai" && !env.apiKey then ⟨2, [], none⟩
    else if te == "argos" && !env.argosAvailable then ⟨2, [], none⟩
    else
      let fetched := fetch_latest_posts (fun c => pageOf c)
        (Int.toNat (max 1 args.limit)) (Int.toNat (max 1 args.max_pages))
      let feed := build_feed digest openaiFn argosFn env.apiKey now channel
        fetched.2 existingOnDisk args.translator args.openai_model
      ⟨0, fetched.1, some feed.1⟩

/-- Lowercase hexadecimal digit. -/
def hexDigit (n : Nat) : Char :=
  if n < 10 then digitChar n else Char.ofNat (87 + n)

/-- JSON escaping of one character under `ensure_ascii=False`: only `"`,
`\` and control characters below 0x20 are escaped; the common controls use
their short forms, the rest use `\u00xx` with lowercase hex. -/
def escapeChar (c : Char) : String :=
  if c = '"' then "\\\""
  else if c = '\\' then "\\\\"
  else if c = '\n' then "\\n"
  else if c = '\t' then "\\t"
  else if c = '\r' then "\\r"
  else if c.toNat = 8 then "\\b"
  else if c.toNat = 12 then "\\f"
  else if c.toNat < 32 then
    "\\u00" ++ String.mk [hexDigit (c.toNat / 16), hexDigit (c.toNat % 16)]
  else String.singleton c

/-- A JSON string literal. -/
def jsonStr (s : String) : String :=
  "\"" ++ s.data.foldl (fun acc c => acc ++ escapeChar c) "" ++ "\""

/-- `n` spaces of indentation. -/
def spaces (n : Nat) : String := String.mk (List.replicate n ' ')

/-- Join pre-rendered container items with the `",\n"` separator that
`json.dump` uses between items when `indent` is set. -/
def joinComma (l : List String) : String := String.join (l.intersperse ",\n")

/-- `json.dumps(j, ensure_ascii=False, indent=2)` at current indentation
`ind`: containers put every item on its own line indented by two more
spaces, empty containers render as `[]` / `{}`. -/
def dumps : Nat → Json → String
  | _, Json.null => "null"
  | _, Json.bool b => if b then "true" else "false"
  | _, Json.num n => pyIntStr n
  | _, Json.str s => jsonStr s
  | ind, Json.arr xs =>
    if xs.isEmpty then "[]"
    else
      "[\n" ++
        joinComma (xs.attach.map (fun x => spaces (ind + 2) ++ dumps (ind + 2) x.1)) ++
        "\n" ++ spaces ind ++ "]"
  | ind, Json.obj fs =>
    if fs.isEmpty then "\x7b\x7d"
    else
      "\x7b\n" ++
        joinComma (fs.attach.map (fun f =>
          spaces (ind + 2) ++ jsonStr f.1.1 ++ ": " ++ dumps (ind + 2) f.1.2)) ++
        "\n" ++ spaces ind ++ "\x7d"
  termination_by _ j => sizeOf j
  decreasing_by
  all_goals first
  | (have hx := List.sizeOf_lt_of_mem x.2
     simp only [Json.arr.sizeOf_spec]
     omega)
  | (have h1 := List.sizeOf_lt_of_mem f.2
     have h2 : sizeOf f.1.2 < sizeOf f.1 := by
       obtain ⟨⟨a, b⟩, hf⟩ := f
       simp
     simp only [Json.obj.sizeOf_spec]
     omega)

/-- The bytes `write_json` puts in the file: the serialized feed followed
by one newline. -/
def write_json_bytes (data : Json) : String := dumps 0 data ++ "\n"

/-- Replace an integer JSON value by its Python decimal string form; leave
anything else unchanged (used to compare the two persisted `id`
representations). -/
def normIdVal : Json → Json
  | Json.num n => Json.str (pyIntStr n)
  | v => v

/-- Apply `normIdVal` to the value of an `"id"` field. -/
def normField (kv : String × Json) : String × Json :=
  if kv.1 = "id" then (kv.1, normIdVal kv.2) else kv

/-- Rewrite a prior entry so that an integer `id` becomes the equivalent
JSON string `str(id)`; non-objects are unchanged. -/
def normEntry : Json → Json
  | Json.obj fs => Json.obj (fs.map normField)
  | e => e

/-- Whether a prior entry participates in `existing_by_id` under a decimal
key: it is an object whose `id` is a JSON integer or string. -/
def isCacheIndexed : Json → Bool
  | Json.obj fs =>
    match lookupFields fs "id" with
    | some (Json.num _) => true
    | some (Json.str _) => true
    | _ => false
  | _ => false

/-- C5 (amended): the persisted feed is a top-level object with fields
`generated_at_utc`, `source`, `channel` and `posts`, and each entry
carries exactly the fields `id`, `url`, `date_utc`, `hash`,
`translation_key`, `text_ru`, `images`, `title_en` and `text_en`, in that
order. -/
theorem feed_field_names (digest openaiFn argosFn : String → String) (apiKey : Bool)
    (now channel : String) (posts : List TgPost) (existing_feed : List (String × Json))
    (translator openai_model : String) :
    objKeys (build_feed digest openaiFn argosFn apiKey now channel posts
        existing_feed translator openai_model).1
      = ["generated_at_utc", "source", "channel", "posts"]
    ∧ ∀ e ∈ entriesOf (build_feed digest openaiFn argosFn apiKey now channel posts
        existing_feed translator openai_model).1,
        objKeys e = ["id", "url", "date_utc", "hash", "translation_key",
                     "text_ru", "images", "title_en", "text_en"] := by
  refine ⟨rfl, ?_⟩
  intro e he
  have h1 : entriesOf (build_feed digest openaiFn argosFn apiKey now channel posts
      existing_feed translator openai_model).1
      = posts.map (fun p =>
          (processPost openaiFn argosFn
            (effectiveTranslator translator apiKey)
            (translationKeyOf (effectiveTranslator translator apiKey) openai_model)
            ((buildIndex (existingPosts existing_feed) (pyIntStr p.message_id)).getD (Json.obj []))
            (content_hash digest p) p).1) := by
    simp [entriesOf, build_feed, jget, lookupFields]
  rw [h1] at he
  obtain ⟨p, _, rfl⟩ := List.mem_map.mp he
  rfl

/-- C5 (counterexample): on a concrete run, the persisted feed has none of
the spec's field names `generated_at`, `entries`, `published_at`,
`fingerprint`, `text_original`, `title_translated`, `text_translated`;
the code uses `generated_at_utc`, `posts`, `date_utc`, `hash`, `text_ru`,
`title_en`, `text_en` instead. -/
theorem feed_fields_not_spec_names :
    let out := (build_feed id (fun _ => "") (fun _ => "") false "T0" "chan12345"
      [⟨"chan12345", 1, "https://t.me/chan12345/1", none, "txt", []⟩] [] "none" "m").1
    let e := (entriesOf out).headD Json.null
    jget out "generated_at" = none ∧ jget out "entries" = none
    ∧ jget out "generated_at_utc" = some (Json.str "T0")
    ∧ (entriesOf out).length = 1
    ∧ jget e "published_at" = none ∧ jget e "fingerprint" = none
    ∧ jget e "text_original" = none ∧ jget e "title_translated" = none
    ∧ jget e "text_translated" = none
    ∧ jget e "date_utc" = some Json.null ∧ jget e "hash" = some (Json.str "txt\n")
    ∧ jget e "text_ru" = some (Json.str "txt") := by
  exact ⟨rfl, rfl, rfl, rfl, rfl, rfl, rfl, rfl, rfl, rfl, rfl, rfl⟩

/-- C8: the merged feed's entry list is exactly the fresh post list, in
order: entry `i` has the id of fresh post `i`, and there are exactly as
many entries as fresh posts (so no prior-feed post that did not reappear
among the fresh posts is ever emitted). -/
theorem merge_entries_match_fresh_posts (digest openaiFn argosFn : String → String)
    (apiKey : Bool) (now channel : String) (posts : List TgPost)
    (existing_feed : List (String × Json)) (translator openai_model : String) :
    (entriesOf (build_feed digest openaiFn argosFn apiKey now channel posts
        existing_feed translator openai_model).1).map (fun e => jget e "id")
      = posts.map (fun p => some (Json.num p.message_id))
    ∧ (entriesOf (build_feed digest openaiFn argosFn apiKey now channel posts
        existing_feed translator openai_model).1).length = posts.length := by
  have h1 : entriesOf (build_feed digest openaiFn argosFn apiKey now channel posts
      existing_feed translator openai_model).1
      = posts.map (fun p =>
          (processPost openaiFn argosFn
            (effectiveTranslator translator apiKey)
            (translationKeyOf (effectiveTranslator translator apiKey) openai_model)
            ((buildIndex (existingPosts existing_feed) (pyIntStr p.message_id)).getD (Json.obj []))
            (content_hash digest p) p).1) := by
    simp [entriesOf, build_feed, jget, lookupFields]
  rw [h1, List.map_map, List.length_map]
  exact ⟨List.map_congr_left (fun p _ => rfl), rfl⟩

/-- C9: a channel identifier that fails `^[A-Za-z0-9_]{5,}$` after
whitespace stripping and leading-`@` removal makes `main` return exit
code 2 with no page request issued and nothing written. -/
theorem invalid_channel_rejected (env : Env) (pageOf : Option Int → List TgPost)
    (digest openaiFn argosFn : String → String) (now : String)
    (existingOnDisk : List (String × Json)) (args : Args)
    (h : validChannel (pyLStripAt (pyStrip args.channel)) = false) :
    runMain env pageOf digest openaiFn argosFn now existingOnDisk args = ⟨2, [], none⟩ := by
  simp [runMain, h]

/-- C9 witness: the 4-character channel `"ab"` is concretely rejected:
exit code 2, no network requests, nothing written. -/
theorem invalid_channel_rejected_witness :
    validChannel (pyLStripAt (pyStrip "ab")) = false
    ∧ runMain ⟨false, true⟩ (fun _ => []) id (fun _ => "") (fun _ => "") "T0" []
        ⟨"ab", 25, 6, "auto", "m"⟩ = ⟨2, [], none⟩ := by
  refine ⟨by decide, ?_⟩
  exact invalid_channel_rejected ⟨false, true⟩ (fun _ => []) id (fun _ => "") (fun _ => "")
    "T0" [] ⟨"ab", 25, 6, "auto", "m"⟩ (by decide)

/-- C4: in the merge, the prior translated text is reused iff the prior
entry's fingerprint (a string) equals the fresh post's fingerprint, the
prior `text_en` is a non-blank string, and the prior `translation_key`
(a string) equals the current run's key; mode `none` always emits empty
title and text regardless of cache state; and when reuse applies no
translation backend is invoked and the prior text is emitted verbatim. -/
theorem translation_reuse_characterization (openaiFn argosFn : String → String)
    (te tk phash : String) (existing : Json) (p : TgPost) :
    (reuse_translation tk phash existing = true
      ↔ asStr (jget existing "hash") = some phash
        ∧ (∃ t, asStr (jget existing "text_en") = some t ∧ pyStrip t ≠ "")
        ∧ asStr (jget existing "translation_key") = some tk)
    ∧ (te = "none" →
        jget (processPost openaiFn argosFn te tk existing phash p).1 "title_en"
            = some (Json.str "")
        ∧ jget (processPost openaiFn argosFn te tk existing phash p).1 "text_en"
            = some (Json.str "")
        ∧ (processPost openaiFn argosFn te tk existing phash p).2 = false)
    ∧ (te ≠ "none" → reuse_translation tk phash existing = true →
        jget (processPost openaiFn argosFn te tk existing phash p).1 "text_en"
            = some (Json.str (getStrD existing "text_en"))
        ∧ (processPost openaiFn argosFn te tk existing phash p).2 = false)
    ∧ (te ≠ "none" → reuse_translation tk phash existing = false →
        pyStrip p.text_ru ≠ "" →
        (processPost openaiFn argosFn te tk existing phash p).2 = true) := by
  refine ⟨?_, ?_, ?_, ?_⟩
  · unfold reuse_translation
    cases hte : asStr (jget existing "text_en") with
    | none => simp [hte]
    | some t => simp [hte, and_assoc]
  · intro h
    subst h
    refine ⟨?_, ?_, ?_⟩ <;> simp [processPost, translationFor, jget, lookupFields]
  · intro hne hr
    have hb : (te == "none") = false := by
      simpa using hne
    refine ⟨?_, ?_⟩ <;> simp [processPost, translationFor, jget, lookupFields, hb, hr]
  · intro hne hr hblank
    have hb : (te == "none") = false := by
      simpa using hne
    have hbl : (pyStrip p.text_ru == "") = false := by
      simpa using hblank
    by_cases ho : (te == "openai") = true <;>
      simp [processPost, translationFor, hb, hr, hbl, ho]

/-- C4 witness: a concrete cache hit (matching fingerprint and key,
non-blank prior text) emits the cached text with no backend call. -/
theorem translation_reuse_characterization_witness :
    jget (processPost (fun _ => "X") (fun _ => "Y") "argos" "K"
        (Json.obj [("hash", Json.str "H"), ("text_en", Json.str "hello"),
                   ("translation_key", Json.str "K")])
        "H" ⟨"chan12345", 100, "u", none, "txt", []⟩).1 "text_en"
      = some (Json.str "hello")
    ∧ (processPost (fun _ => "X") (fun _ => "Y") "argos" "K"
        (Json.obj [("hash", Json.str "H"), ("text_en", Json.str "hello"),
                   ("translation_key", Json.str "K")])
        "H" ⟨"chan12345", 100, "u", none, "txt", []⟩).2 = false := by
  have h := (translation_reuse_characterization (fun _ => "X") (fun _ => "Y") "argos" "K" "H"
    (Json.obj [("hash", Json.str "H"), ("text_en", Json.str "hello"),
               ("translation_key", Json.str "K")])
    ⟨"chan12345", 100, "u", none, "txt", []⟩).2.2.1 (by decide) (by rfl)
  simpa using h

/-- C1 (amended): given a prior entry whose fingerprint matches the fresh
post and whose prior title is a non-blank string, the merged entry's
title equals the prior title IFF the text-reuse conditions also hold
(same translation key, non-blank prior text) and the mode is not `none`;
in particular the title is NOT reused when only the key differs. -/
theorem title_reuse_iff (openaiFn argosFn : String → String)
    (te tk phash : String) (existing : Json) (p : TgPost)
    (hhash : asStr (jget existing "hash") = some phash)
    (htitle : ∃ t, asStr (jget existing "title_en") = some t ∧ pyStrip t ≠ "") :
    jget (processPost openaiFn argosFn te tk existing phash p).1 "title_en"
        = some (Json.str (getStrD existing "title_en"))
      ↔ (te ≠ "none" ∧ reuse_translation tk phash existing = true) := by
  obtain ⟨t, ht, htne⟩ := htitle
  have htD : getStrD existing "title_en" = t := by
    simp [getStrD, ht]
  have htne' : t ≠ "" := by
    intro h
    exact htne (by simp [h, pyStrip])
  have hrt : reuse_title phash existing = true := by
    simp [reuse_title, hhash, ht, htne]
  have hjget : jget (processPost openaiFn argosFn te tk existing phash p).1 "title_en"
      = some (Json.str (translationFor openaiFn argosFn te tk phash existing p.text_ru).1) := by
    simp [processPost, jget, lookupFields]
  rw [hjget, htD]
  by_cases hn : te = "none"
  · subst hn
    simp [translationFor]
    exact fun h => (htne' h.symm).elim
  · have hb : (te == "none") = false := by simpa using hn
    by_cases hr : reuse_translation tk phash existing = true
    · simp [translationFor, hb, hr, hrt, htD, hn]
    · have hrb : reuse_translation tk phash existing = false := by
        simpa using hr
      simp only [translationFor, hb, hrb, Bool.false_eq_true, if_false]
      constructor
      · intro h
        by_cases ho : (te == "openai") = true <;>
          by_cases hblank : (pyStrip p.text_ru == "") = true <;>
            simp [ho, hblank] at h <;> exact (htne' h.symm).elim
      · rintro ⟨-, h⟩
        exact h.elim

/-- C1 (witness for the amended theorem): when fingerprint, key and
non-blank prior title and text all match, the prior title is concretely
reused. -/
theorem title_reuse_iff_witness :
    jget (processPost (fun _ => "X") (fun _ => "Y") "argos" "argos"
        (Json.obj [("hash", Json.str "H"), ("text_en", Json.str "hello"),
                   ("title_en", Json.str "T"), ("translation_key", Json.str "argos")])
        "H" ⟨"chan12345", 100, "u", none, "txt", []⟩).1 "title_en"
      = some (Json.str "T") := by
  have h := (title_reuse_iff (fun _ => "X") (fun _ => "Y") "argos" "argos" "H"
    (Json.obj [("hash", Json.str "H"), ("text_en", Json.str "hello"),
               ("title_en", Json.str "T"), ("translation_key", Json.str "argos")])
    ⟨"chan12345", 100, "u", none, "txt", []⟩ rfl ⟨"T", rfl, by decide⟩).mpr
    ⟨by decide, by rfl⟩
  simpa using h

/-- C1 (counterexample): fingerprint matches and the prior title `"T"` is
non-blank, but the prior translation key `"K1"` differs from the current
key `"argos"`; the merged title is `""`, not the prior title — title
reuse is not independent of the key. -/
theorem title_dropped_on_key_change :
    asStr (jget (Json.obj [("hash", Json.str "txt\n"), ("text_en", Json.str "hello"),
        ("title_en", Json.str "T"), ("translation_key", Json.str "K1")]) "hash")
      = some (content_hash id ⟨"chan12345", 100, "u", none, "txt", []⟩)
    ∧ asStr (jget (Json.obj [("hash", Json.str "txt\n"), ("text_en", Json.str "hello"),
        ("title_en", Json.str "T"), ("translation_key", Json.str "K1")]) "title_en")
      = some "T"
    ∧ pyStrip "T" ≠ ""
    ∧ asStr (jget (Json.obj [("hash", Json.str "txt\n"), ("text_en", Json.str "hello"),
        ("title_en", Json.str "T"), ("translation_key", Json.str "K1")]) "translation_key")
      = some "K1"
    ∧ ("K1" : String) ≠ "argos"
    ∧ jget (processPost (fun _ => "X") (fun _ => "Y") "argos" "argos"
        (Json.obj [("hash", Json.str "txt\n"), ("text_en", Json.str "hello"),
                   ("title_en", Json.str "T"), ("translation_key", Json.str "K1")])
        (content_hash id ⟨"chan12345", 100, "u", none, "txt", []⟩)
        ⟨"chan12345", 100, "u", none, "txt", []⟩).1 "title_en"
      = some (Json.str "")
    ∧ (Json.str "" : Json) ≠ Json.str "T" := by
  exact ⟨rfl, rfl, by decide, rfl, by decide, rfl, by simp⟩

/-- Splitting at the first newline is unambiguous: if neither prefix
contains a newline, equal concatenations have equal prefixes and equal
suffixes. -/
theorem append_newline_inj {a c b d : List Char}
    (ha : '\n' ∉ a) (hc : '\n' ∉ c)
    (h : a ++ '\n' :: b = c ++ '\n' :: d) : a = c ∧ b = d := by
  induction a generalizing c with
  | nil =>
    cases c with
    | nil => simpa using h
    | cons y cs =>
      simp only [List.nil_append, List.cons_append, List.cons.injEq] at h
      exact absurd (h.1 ▸ List.mem_cons_self y cs) hc
  | cons x as ih =>
    cases c with
    | nil =>
      simp only [List.nil_append, List.cons_append, List.cons.injEq] at h
      exact absurd (h.1.symm ▸ List.mem_cons_self x as) ha
    | cons y cs =>
      simp only [List.cons_append, List.cons.injEq] at h
      obtain ⟨rfl, h2⟩ := h
      have hr := ih (fun hm => ha (List.mem_cons_of_mem _ hm))
        (fun hm => hc (List.mem_cons_of_mem _ hm)) h2
      exact ⟨by rw [hr.1], hr.2⟩

/-- Character content of the image-URL block of the digest input. -/
theorem imagesPart_data (u : String) (us : List String) :
    (imagesPart (u :: us)).data = u.data ++ '\n' :: (imagesPart us).data := by
  simp [imagesPart]

/-- The newline-terminated image-URL block determines the URL list when no
URL contains a newline. -/
theorem imagesPart_inj : ∀ us vs : List String,
    (∀ u ∈ us, '\n' ∉ u.data) → (∀ v ∈ vs, '\n' ∉ v.data) →
    (imagesPart us).data = (imagesPart vs).data → us = vs
  | [], [], _, _, _ => rfl
  | [], v :: vs, _, _, h => by
    rw [imagesPart_data] at h
    have hlen : ([] : List Char).length
        = (v.data ++ '\n' :: (imagesPart vs).data).length := congrArg List.length h
    simp at hlen
    omega
  | u :: us, [], _, _, h => by
    rw [imagesPart_data] at h
    have hlen : (u.data ++ '\n' :: (imagesPart us).data).length
        = ([] : List Char).length := congrArg List.length h
    simp at hlen
  | u :: us, v :: vs, hus, hvs, h => by
    rw [imagesPart_data, imagesPart_data] at h
    obtain ⟨h1, h2⟩ := append_newline_inj (hus u (by simp)) (hvs v (by simp)) h
    have hr := imagesPart_inj us vs (fun x hx => hus x (by simp [hx]))
      (fun x hx => hvs x (by simp [hx])) h2
    rw [String.ext h1, hr]

/-- Character content of the full digest input. -/
theorem hashInput_data (p : TgPost) :
    (hashInput p).data
      = p.text_ru.data ++ '\n' ::
          ((p.date_utc.getD "").data ++
            (if p.images.isEmpty then [] else '\n' :: (imagesPart p.images).data)) := by
  cases hi : p.images.isEmpty <;> simp [hashInput, hi]

/-- C2 (amended): the digest input is injective in
`(textOriginal, publishedAt-or-"", images)` PROVIDED none of the fields
contains a newline character; an absent `publishedAt` is encoded exactly
as the empty string (the sentinel coincides with a legitimately empty
date rather than being distinct from it). -/
theorem hash_input_injective_of_no_newline (p q : TgPost)
    (hp1 : '\n' ∉ p.text_ru.data) (hq1 : '\n' ∉ q.text_ru.data)
    (hp2 : '\n' ∉ (p.date_utc.getD "").data) (hq2 : '\n' ∉ (q.date_utc.getD "").data)
    (hp3 : ∀ u ∈ p.images, '\n' ∉ u.data) (hq3 : ∀ u ∈ q.images, '\n' ∉ u.data)
    (h : hashInput p = hashInput q) :
    p.text_ru = q.text_ru ∧ p.date_utc.getD "" = q.date_utc.getD ""
      ∧ p.images = q.images := by
  have hd := congrArg String.data h
  rw [hashInput_data, hashInput_data] at hd
  obtain ⟨h1, h2⟩ := append_newline_inj hp1 hq1 hd
  refine ⟨String.ext h1, ?_⟩
  cases hpi : p.images.isEmpty with
  | true =>
    cases hqi : q.images.isEmpty with
    | true =>
      rw [hpi, hqi] at h2
      simp at h2
      exact ⟨String.ext h2, by
        rw [List.isEmpty_iff.mp hpi, List.isEmpty_iff.mp hqi]⟩
    | false =>
      rw [hpi, hqi] at h2
      simp at h2
      have : '\n' ∈ (p.date_utc.getD "").data := by
        rw [h2]
        exact List.mem_append_right _ (List.mem_cons_self _ _)
      exact absurd this hp2
  | false =>
    cases hqi : q.images.isEmpty with
    | true =>
      rw [hpi, hqi] at h2
      simp at h2
      have : '\n' ∈ (q.date_utc.getD "").data := by
        rw [← h2]
        exact List.mem_append_right _ (List.mem_cons_self _ _)
      exact absurd this hq2
    | false =>
      rw [hpi, hqi] at h2
      simp at h2
      obtain ⟨h3, h4⟩ := append_newline_inj hp2 hq2 h2
      exact ⟨String.ext h3, imagesPart_inj p.images q.images hp3 hq3 h4⟩

/-- C2 witness (for the amended injectivity theorem): applying it to a
concrete newline-free post recovers its field triple. -/
theorem hash_input_injective_of_no_newline_witness :
    (⟨"chan12345", 1, "u", some "D", "txt", ["i"]⟩ : TgPost).text_ru = "txt" := by
  have h := hash_input_injective_of_no_newline
    ⟨"chan12345", 1, "u", some "D", "txt", ["i"]⟩
    ⟨"chan12345", 1, "u", some "D", "txt", ["i"]⟩
    (by decide) (by decide) (by decide) (by decide) (by decide) (by decide) rfl
  exact h.1

/-- C2 (counterexample): the newline-separated concatenation is ambiguous.
`("a", "b\nc", [])` and `("a\nb", "c", [])` are different field triples
with identical digest input, and an absent date collides with an empty
date. -/
theorem hash_input_collision :
    hashInput ⟨"chanA", 1, "u1", some "b\nc", "a", []⟩
        = hashInput ⟨"chanB", 2, "u2", some "c", "a\nb", []⟩
    ∧ ("a" : String) ≠ "a\nb"
    ∧ hashInput ⟨"chanA", 1, "u1", none, "a", []⟩
        = hashInput ⟨"chanA", 1, "u1", some "", "a", []⟩
    ∧ (none : Option String) ≠ some "" := by
  exact ⟨rfl, by decide, rfl, by decide⟩

/-- C3 (amended): the merge is deterministic only once the run timestamp is
fixed alongside the listed inputs: with equal timestamps the serialized
bytes are identical, and two runs differing only in the wall-clock
instant agree on `source`, `channel` and `posts` and differ exactly in
the `generated_at_utc` field, which embeds the clock. -/
theorem build_feed_deterministic_given_timestamp (digest openaiFn argosFn : String → String)
    (apiKey : Bool) (t1 t2 channel : String) (posts : List TgPost)
    (existing_feed : List (String × Json)) (translator openai_model : String) :
    (t1 = t2 →
      write_json_bytes (build_feed digest openaiFn argosFn apiKey t1 channel posts
          existing_feed translator openai_model).1
        = write_json_bytes (build_feed digest openaiFn argosFn apiKey t2 channel posts
          existing_feed translator openai_model).1)
    ∧ jget (build_feed digest openaiFn argosFn apiKey t1 channel posts
        existing_feed translator openai_model).1 "generated_at_utc" = some (Json.str t1)
    ∧ jget (build_feed digest openaiFn argosFn apiKey t1 channel posts
          existing_feed translator openai_model).1 "source"
        = jget (build_feed digest openaiFn argosFn apiKey t2 channel posts
          existing_feed translator openai_model).1 "source"
    ∧ jget (build_feed digest openaiFn argosFn apiKey t1 channel posts
          existing_feed translator openai_model).1 "channel"
        = jget (build_feed digest openaiFn argosFn apiKey t2 channel posts
          existing_feed translator openai_model).1 "channel"
    ∧ jget (build_feed digest openaiFn argosFn apiKey t1 channel posts
          existing_feed translator openai_model).1 "posts"
        = jget (build_feed digest openaiFn argosFn apiKey t2 channel posts
          existing_feed translator openai_model).1 "posts" := by
  exact ⟨fun h => by rw [h], rfl, rfl, rfl, rfl⟩

/-- C3 witness: at a concrete shared timestamp the serialized outputs of
two runs coincide byte for byte. -/
theorem build_feed_deterministic_given_timestamp_witness :
    write_json_bytes (build_feed id (fun _ => "") (fun _ => "") false
        "2024-01-01T00:00:00Z" "chan12345" [] [] "none" "m").1
      = write_json_bytes (build_feed id (fun _ => "") (fun _ => "") false
        "2024-01-01T00:00:00Z" "chan12345" [] [] "none" "m").1 :=
  (build_feed_deterministic_given_timestamp id (fun _ => "") (fun _ => "") false
    "2024-01-01T00:00:00Z" "2024-01-01T00:00:00Z" "chan12345" [] [] "none" "m").1 rfl

/-- C3 (counterexample): with the fetched posts, prior feed and
configuration all fixed, two runs at different wall-clock instants
serialize to different bytes, so repeated runs are not byte-identical. -/
theorem serialized_feed_differs_across_timestamps :
    write_json_bytes (build_feed id (fun _ => "") (fun _ => "") false
        "2024-01-01T00:00:00Z" "chan12345" [] [] "none" "m").1
      ≠ write_json_bytes (build_feed id (fun _ => "") (fun _ => "") false
        "2024-01-01T00:00:01Z" "chan12345" [] [] "none" "m").1 := by
  simp [write_json_bytes, build_feed, dumps, joinComma, jsonStr, spaces, escapeChar]
  decide

/-- The pagination loop issues at most `fuel` page requests. -/
theorem fetchLoop_requests_le (pageOf : Option Int → List TgPost) (limit : Nat) :
    ∀ fuel seen collected before,
      (fetchLoop pageOf limit fuel seen collected before).1.length ≤ fuel := by
  intro fuel
  induction fuel with
  | zero => intro _ _ _; simp [fetchLoop]
  | succ n ih =>
    intro seen collected before
    simp only [fetchLoop]
    split
    · simp
    · split
      · simp
      · split
        · simp
        · split
          · simp
          · simpa using Nat.succ_le_succ (ih _ _ _)

/-- C6: `fetch_latest_posts` always terminates within `max_pages` page
retrievals, and the cursor guard stops the loop as soon as a page (with
the cursor already set) has minimum id at or above the cursor: that page
request is the last one, even against a source that repeats its oldest id
forever. -/
theorem fetch_terminates (pageOf : Option Int → List TgPost) (limit max_pages : Nat) :
    (fetch_latest_posts pageOf limit max_pages).1.length ≤ max_pages
    ∧ (∀ fuel seen collected b,
        (pageOf (urlBefore (some b))).isEmpty = false →
        b ≤ minId (pageOf (urlBefore (some b))) →
        (fetchLoop pageOf limit (fuel + 1) seen collected (some b)).1
          = [urlBefore (some b)]) := by
  constructor
  · exact fetchLoop_requests_le pageOf limit max_pages [] [] none
  · intro fuel seen collected b hne hge
    simp [fetchLoop, hne, guardStop, hge]

/-- C6 witness: against the concrete page source that always returns the
same single post with id 7, the loop issues at most `max_pages = 6`
requests, and with the cursor already at 7 the guard makes the next
request the last. -/
theorem fetch_terminates_witness :
    (fetch_latest_posts (fun _ => [⟨"chan12345", 7, "u", none, "t", []⟩]) 10 6).1.length ≤ 6
    ∧ (fetchLoop (fun _ => [⟨"chan12345", 7, "u", none, "t", []⟩]) 10 (4 + 1) [] []
        (some 7)).1 = [urlBefore (some 7)] := by
  refine ⟨(fetch_terminates (fun _ => [⟨"chan12345", 7, "u", none, "t", []⟩]) 10 6).1, ?_⟩
  exact (fetch_terminates (fun _ => [⟨"chan12345", 7, "u", none, "t", []⟩]) 10 6).2
    4 [] [] 7 (by decide) (by decide)

/-- Elements accumulated by the inner page loop come from the initial
accumulator or from the page itself. -/
theorem addPostStep_fold_mem : ∀ (page : List TgPost) (acc : List String × List TgPost × Nat)
    (p : TgPost), p ∈ (page.foldl addPostStep acc).2.1 → p ∈ acc.2.1 ∨ p ∈ page
  | [], _, _, h => Or.inl h
  | q :: page, acc, p, h => by
    rcases addPostStep_fold_mem page (addPostStep acc q) p h with h1 | h1
    · unfold addPostStep at h1
      split at h1
      · exact Or.inl h1
      · simp only [List.mem_append, List.mem_singleton] at h1
        rcases h1 with h1 | rfl
        · exact Or.inl h1
        · exact Or.inr (List.mem_cons_self _ _)
    · exact Or.inr (List.mem_cons_of_mem _ h1)

/-- Invariant of the inner page loop: accumulated posts have pairwise
distinct keys, and every accumulated key is in the seen set. -/
theorem addPostStep_fold_good : ∀ (page : List TgPost) (acc : List String × List TgPost × Nat),
    (acc.2.1.map TgPost.key).Nodup → (∀ p ∈ acc.2.1, p.key ∈ acc.1) →
    ((page.foldl addPostStep acc).2.1.map TgPost.key).Nodup
    ∧ (∀ p ∈ (page.foldl addPostStep acc).2.1, p.key ∈ (page.foldl addPostStep acc).1)
  | [], _, h1, h2 => ⟨h1, h2⟩
  | q :: page, acc, h1, h2 => by
    refine addPostStep_fold_good page (addPostStep acc q) ?_ ?_
    · unfold addPostStep
      split
      · exact h1
      · rename_i hq
        simp only [List.map_append, List.map_cons, List.map_nil]
        rw [List.nodup_append]
        refine ⟨h1, List.nodup_singleton _, ?_⟩
        intro k hk hk2
        simp only [List.mem_singleton] at hk2
        subst hk2
        obtain ⟨r, hr, hrk⟩ := List.mem_map.mp hk
        exact hq (hrk ▸ h2 r hr)
    · unfold addPostStep
      split
      · exact h2
      · intro p hp
        simp only [List.mem_append, List.mem_singleton] at hp
        rcases hp with hp | rfl
        · exact List.mem_cons_of_mem _ (h2 p hp)
        · exact List.mem_cons_self _ _

/-- Invariant of the pagination loop: the accumulated posts have pairwise
distinct keys, and every accumulated post is either initial or comes from
some fetched page. -/
theorem fetchLoop_collected_good (pageOf : Option Int → List TgPost) (limit : Nat) :
    ∀ fuel seen collected before,
      (collected.map TgPost.key).Nodup → (∀ p ∈ collected, p.key ∈ seen) →
      (((fetchLoop pageOf limit fuel seen collected before).2.map TgPost.key).Nodup
       ∧ ∀ p ∈ (fetchLoop pageOf limit fuel seen collected before).2,
           p ∈ collected ∨ ∃ c, p ∈ pageOf c) := by
  intro fuel
  induction fuel with
  | zero =>
    intro seen collected before h1 _
    exact ⟨h1, fun p hp => Or.inl hp⟩
  | succ n ih =>
    intro seen collected before h1 h2
    have hg := addPostStep_fold_good (pageOf (urlBefore before)) (seen, collected, 0) h1 h2
    have hm := addPostStep_fold_mem (pageOf (urlBefore before)) (seen, collected, 0)
    simp only [fetchLoop, addPage]
    split
    · exact ⟨h1, fun p hp => Or.inl hp⟩
    · split
      · exact ⟨hg.1, fun p hp => (hm p hp).imp id (fun h => ⟨_, h⟩)⟩
      · split
        · exact ⟨hg.1, fun p hp => (hm p hp).imp id (fun h => ⟨_, h⟩)⟩
        · split
          · exact ⟨hg.1, fun p hp => (hm p hp).imp id (fun h => ⟨_, h⟩)⟩
          · have hr := ih _ _ (some (minId (pageOf (urlBefore before)))) hg.1 hg.2
            refine ⟨hr.1, fun p hp => ?_⟩
            rcases hr.2 p hp with h | h
            · exact (hm p h).imp id (fun h => ⟨_, h⟩)
            · exact Or.inr h

/-- With a fixed channel, distinct keys force distinct ids (the key is the
channel, a slash, and the decimal id). -/
theorem ids_nodup_of_keys {l : List TgPost} {ch : String}
    (hk : (l.map TgPost.key).Nodup) (hc : ∀ p ∈ l, p.channel = ch) :
    (l.map TgPost.message_id).Nodup := by
  have he : l.map TgPost.key
      = (l.map TgPost.message_id).map (fun i => ch ++ "/" ++ pyIntStr i) := by
    rw [List.map_map]
    exact List.map_congr_left (fun p hp => by simp [TgPost.key, hc p hp])
  rw [he] at hk
  exact hk.of_map _

/-- The sort of `fetch_latest_posts` is a permutation of its input. -/
theorem sortDesc_perm (l : List TgPost) : List.Perm (sortDesc l) l :=
  List.perm_insertionSort idGe l

/-- When ids are distinct, the descending sort is strictly descending. -/
theorem sortDesc_strict {l : List TgPost} (h : (l.map TgPost.message_id).Nodup) :
    (sortDesc l).Pairwise (fun a b => b.message_id < a.message_id) := by
  have hp : (sortDesc l).Pairwise idGe := List.sorted_insertionSort idGe l
  have hn : ((sortDesc l).map TgPost.message_id).Nodup :=
    (((sortDesc_perm l).map TgPost.message_id).nodup_iff).mpr h
  have hne : (sortDesc l).Pairwise (fun a b => a.message_id ≠ b.message_id) :=
    List.pairwise_map.mp hn
  exact (hp.and hne).imp (fun h => lt_of_le_of_ne h.1 (fun he => h.2 he.symm))

/-- C7: for every page source over the run's channel, the returned list is
strictly descending by id (hence free of repeated ids), has length at
most `limit`, and consists of exactly the highest-id posts among
everything the pagination loop collected: it has precisely
`min limit #collected` entries, every returned post was collected, and
any collected post left out has an id strictly below every returned
id. -/
theorem fetch_result_invariants (pageOf : Option Int → List TgPost) (channel : String)
    (limit max_pages : Nat)
    (hch : ∀ c p, p ∈ pageOf c → p.channel = channel) :
    (fetch_latest_posts pageOf limit max_pages).2.Pairwise
        (fun a b => b.message_id < a.message_id)
    ∧ (fetch_latest_posts pageOf limit max_pages).2.length ≤ limit
    ∧ (fetch_latest_posts pageOf limit max_pages).2.length
        = min limit (fetchLoop pageOf limit max_pages [] [] none).2.length
    ∧ (∀ p ∈ (fetch_latest_posts pageOf limit max_pages).2,
        p ∈ (fetchLoop pageOf limit max_pages [] [] none).2)
    ∧ ∀ p ∈ (fetch_latest_posts pageOf limit max_pages).2,
        ∀ q ∈ (fetchLoop pageOf limit max_pages [] [] none).2,
          q ∉ (fetch_latest_posts pageOf limit max_pages).2 →
            q.message_id < p.message_id := by
  have hg := fetchLoop_collected_good pageOf limit max_pages [] [] none (by simp) (by simp)
  have hch' : ∀ p ∈ (fetchLoop pageOf limit max_pages [] [] none).2,
      p.channel = channel := by
    intro p hp
    rcases hg.2 p hp with h | ⟨c, h⟩
    · simp at h
    · exact hch c p h
  have hids := ids_nodup_of_keys hg.1 hch'
  have hstrict := sortDesc_strict hids
  have hres : (fetch_latest_posts pageOf limit max_pages).2
      = (sortDesc (fetchLoop pageOf limit max_pages [] [] none).2).take limit := rfl
  refine ⟨?_, ?_, ?_, ?_, ?_⟩
  · rw [hres]
    exact hstrict.sublist (List.take_sublist _ _)
  · rw [hres, List.length_take]
    exact min_le_left _ _
  · rw [hres, List.length_take, (sortDesc_perm _).length_eq]
  · intro p hp
    rw [hres] at hp
    exact ((sortDesc_perm _).mem_iff).mp ((List.take_sublist _ _).subset hp)
  · intro p hp q hq hqn
    rw [hres] at hp hqn
    have hqS : q ∈ sortDesc (fetchLoop pageOf limit max_pages [] [] none).2 :=
      ((sortDesc_perm _).mem_iff).mpr hq
    rw [← List.take_append_drop limit
      (sortDesc (fetchLoop pageOf limit max_pages [] [] none).2)] at hqS
    have hqd := (List.mem_append.mp hqS).resolve_left hqn
    have hsplit := hstrict
    rw [← List.take_append_drop limit
      (sortDesc (fetchLoop pageOf limit max_pages [] [] none).2)] at hsplit
    exact (List.pairwise_append.mp hsplit).2.2 p hp q hqd

/-- C7 witness: a single page with three distinct ids (5, 9, 7) under
`limit = 2` concretely yields a strictly descending result with exactly
`min 2 3 = 2` entries, the two highest ids `[9, 7]`. -/
theorem fetch_result_invariants_witness :
    (fetch_latest_posts (fun _ => [⟨"chan12345", 5, "u5", none, "a", []⟩,
        ⟨"chan12345", 9, "u9", none, "b", []⟩,
        ⟨"chan12345", 7, "u7", none, "c", []⟩]) 2 1).2.Pairwise
      (fun a b => b.message_id < a.message_id)
    ∧ (fetch_latest_posts (fun _ => [⟨"chan12345", 5, "u5", none, "a", []⟩,
        ⟨"chan12345", 9, "u9", none, "b", []⟩,
        ⟨"chan12345", 7, "u7", none, "c", []⟩]) 2 1).2.length = 2
    ∧ ((fetch_latest_posts (fun _ => [⟨"chan12345", 5, "u5", none, "a", []⟩,
        ⟨"chan12345", 9, "u9", none, "b", []⟩,
        ⟨"chan12345", 7, "u7", none, "c", []⟩]) 2 1).2.map TgPost.message_id) = [9, 7] := by
  have h := fetch_result_invariants (fun _ => [⟨"chan12345", 5, "u5", none, "a", []⟩,
      ⟨"chan12345", 9, "u9", none, "b", []⟩,
      ⟨"chan12345", 7, "u7", none, "c", []⟩]) "chan12345" 2 1
    (by
      intro c p hp
      simp only [List.mem_cons, List.not_mem_nil, or_false] at hp
      rcases hp with rfl | rfl | rfl <;> rfl)
  refine ⟨h.1, ?_, by decide⟩
  rw [h.2.2.1]
  decide

/-- `digitChar` of a value below ten is a digit character. -/
theorem digitChar_isDigit {m : Nat} (h : m < 10) : (digitChar m).isDigit = true := by
  interval_cases m <;> decide

/-- Every character produced by `natDigitsAux` is a digit. -/
theorem natDigitsAux_digits : ∀ fuel n, ∀ c ∈ natDigitsAux fuel n, c.isDigit = true := by
  intro fuel
  induction fuel with
  | zero =>
    intro n c hc
    simp [natDigitsAux] at hc
  | succ f ih =>
    intro n c hc
    simp only [natDigitsAux] at hc
    split at hc
    · rename_i h
      simp only [List.mem_singleton] at hc
      subst hc
      exact digitChar_isDigit h
    · simp only [List.mem_append, List.mem_singleton] at hc
      rcases hc with hc | hc
      · exact ih _ c hc
      · subst hc
        exact digitChar_isDigit (Nat.mod_lt _ (by norm_num))

/-- Every character of Python `str(int)` is a digit or the minus sign. -/
theorem pyIntStr_chars : ∀ (n : Int), ∀ c ∈ (pyIntStr n).data, c.isDigit = true ∨ c = '-'
  | Int.ofNat _, c, hc => Or.inl (natDigitsAux_digits _ _ c hc)
  | Int.negSucc _, c, hc => by
    rcases List.mem_cons.mp hc with h | h
    · exact Or.inr h
    · exact Or.inl (natDigitsAux_digits _ _ c h)

/-- The decimal form of an integer id never collides with the keys
`str(True)` / `str(False)` under which boolean ids are indexed. -/
theorem pyIntStr_ne_pyBoolStr (n : Int) (b : Bool) : pyIntStr n ≠ pyBoolStr b := by
  intro h
  have h1 : ('T' : Char) ∈ (pyIntStr n).data ∨ ('F' : Char) ∈ (pyIntStr n).data := by
    rw [h]
    cases b
    · exact Or.inr (by decide)
    · exact Or.inl (by decide)
  rcases h1 with h1 | h1 <;> rcases pyIntStr_chars n _ h1 with h2 | h2 <;>
    revert h2 <;> decide

/-- `normField` on an explicit pair. -/
theorem normField_eq (k : String) (v : Json) :
    normField (k, v) = if k = "id" then (k, normIdVal v) else (k, v) := rfl

/-- Normalizing the `id` field leaves every other field untouched. -/
theorem lookupFields_map_normField : ∀ (fs : List (String × Json)) (k : String), k ≠ "id" →
    lookupFields (fs.map normField) k = lookupFields fs k
  | [], _, _ => rfl
  | (k', v) :: fs, k, hk => by
    simp only [List.map_cons, normField_eq]
    by_cases h1 : k' = "id"
    · subst h1
      rw [if_pos rfl]
      show (if "id" = k then some (normIdVal v) else lookupFields (fs.map normField) k)
        = (if "id" = k then some v else lookupFields fs k)
      rw [if_neg (fun he => hk he.symm), if_neg (fun he => hk he.symm)]
      exact lookupFields_map_normField fs k hk
    · rw [if_neg h1]
      show (if k' = k then some v else lookupFields (fs.map normField) k)
        = (if k' = k then some v else lookupFields fs k)
      by_cases h2 : k' = k
      · rw [if_pos h2, if_pos h2]
      · rw [if_neg h2, if_neg h2]
        exact lookupFields_map_normField fs k hk

/-- Normalizing the `id` field maps its value through `normIdVal`. -/
theorem lookupFields_map_normField_id : ∀ (fs : List (String × Json)),
    lookupFields (fs.map normField) "id" = (lookupFields fs "id").map normIdVal
  | [] => rfl
  | (k', v) :: fs => by
    simp only [List.map_cons, normField_eq]
    by_cases h1 : k' = "id"
    · subst h1
      rw [if_pos rfl]
      show (if "id" = "id" then some (normIdVal v) else lookupFields (fs.map normField) "id")
        = ((if "id" = "id" then some v else lookupFields fs "id").map normIdVal)
      rw [if_pos rfl, if_pos rfl]
      rfl
    · rw [if_neg h1]
      show (if k' = "id" then some v else lookupFields (fs.map normField) "id")
        = ((if k' = "id" then some v else lookupFields fs "id").map normIdVal)
      rw [if_neg h1, if_neg h1]
      exact lookupFields_map_normField_id fs

/-- `jget` at a non-`id` key is invariant under id normalization. -/
theorem jget_normEntry_ne (e : Json) (k : String) (hk : k ≠ "id") :
    jget (normEntry e) k = jget e k := by
  cases e with
  | obj fs => exact lookupFields_map_normField fs k hk
  | null => rfl
  | bool b => rfl
  | num n => rfl
  | str s => rfl
  | arr xs => rfl

/-- Merging a post against a prior entry only reads the entry's `hash`,
`text_en`, `title_en` and `translation_key` fields. -/
theorem processPost_congr_existing (openaiFn argosFn : String → String)
    (te tk phash : String) (p : TgPost) {e1 e2 : Json}
    (h : ∀ k, k ≠ "id" → jget e1 k = jget e2 k) :
    processPost openaiFn argosFn te tk e1 phash p
      = processPost openaiFn argosFn te tk e2 phash p := by
  have hh := h "hash" (by decide)
  have ht := h "text_en" (by decide)
  have hti := h "title_en" (by decide)
  have htk := h "translation_key" (by decide)
  simp only [processPost, translationFor, reuse_translation, reuse_title, getStrD,
    hh, ht, hti, htk]

/-- `indexStep` on an object entry, written out as a lookup-and-branch. -/
theorem indexStep_eq (idx : String → Option Json) (fs : List (String × Json)) (k : String) :
    indexStep idx (Json.obj fs) k
      = match lookupFields fs "id" with
        | some (Json.num n) => if k = pyIntStr n then some (Json.obj fs) else idx k
        | some (Json.str s) => if k = s then some (Json.obj fs) else idx k
        | some (Json.bool b) => if k = pyBoolStr b then some (Json.obj fs) else idx k
        | _ => idx k := by
  show (match Json.obj fs with
    | Json.obj _ =>
      match lookupFields fs "id" with
      | some (Json.num n) => fun k => if k = pyIntStr n then some (Json.obj fs) else idx k
      | some (Json.str s) => fun k => if k = s then some (Json.obj fs) else idx k
      | some (Json.bool b) => fun k => if k = pyBoolStr b then some (Json.obj fs) else idx k
      | _ => idx
    | _ => idx) k = _
  cases lookupFields fs "id" with
  | none => rfl
  | some v => cases v <;> rfl

/-- `indexStep` skips entries that are not objects. -/
theorem indexStep_not_obj (idx : String → Option Json) :
    ∀ e : Json, (∀ fs, e ≠ Json.obj fs) → indexStep idx e = idx
  | Json.null, _ => rfl
  | Json.bool _, _ => rfl
  | Json.num _, _ => rfl
  | Json.str _, _ => rfl
  | Json.arr _, _ => rfl
  | Json.obj fs, h => absurd rfl (h fs)

/-- The index built over id-normalized entries is the id-normalization of
the index built over the originals. -/
theorem indexFold_norm : ∀ (ps : List Json) (idx1 idx2 : String → Option Json),
    (∀ k, idx1 k = Option.map normEntry (idx2 k)) →
    ∀ k, ((ps.map normEntry).foldl indexStep idx1) k
      = Option.map normEntry ((ps.foldl indexStep idx2) k)
  | [], _, _, h, k => h k
  | e :: ps, idx1, idx2, h, k => by
    simp only [List.map_cons, List.foldl_cons]
    refine indexFold_norm ps _ _ ?_ k
    intro k2
    cases e with
    | obj fs =>
      have hid := lookupFields_map_normField_id fs
      show indexStep idx1 (Json.obj (fs.map normField)) k2
        = Option.map normEntry (indexStep idx2 (Json.obj fs) k2)
      rw [indexStep_eq, indexStep_eq, hid]
      cases hcase : lookupFields fs "id" with
      | none => exact h k2
      | some v =>
        cases v with
        | num n =>
          show (if k2 = pyIntStr n then some (Json.obj (fs.map normField)) else idx1 k2)
            = Option.map normEntry (if k2 = pyIntStr n then some (Json.obj fs) else idx2 k2)
          by_cases hk : k2 = pyIntStr n
          · rw [if_pos hk, if_pos hk]
            rfl
          · rw [if_neg hk, if_neg hk]
            exact h k2
        | str s =>
          show (if k2 = s then some (Json.obj (fs.map normField)) else idx1 k2)
            = Option.map normEntry (if k2 = s then some (Json.obj fs) else idx2 k2)
          by_cases hk : k2 = s
          · rw [if_pos hk, if_pos hk]
            rfl
          · rw [if_neg hk, if_neg hk]
            exact h k2
        | bool b =>
          show (if k2 = pyBoolStr b then some (Json.obj (fs.map normField)) else idx1 k2)
            = Option.map normEntry (if k2 = pyBoolStr b then some (Json.obj fs) else idx2 k2)
          by_cases hk : k2 = pyBoolStr b
          · rw [if_pos hk, if_pos hk]
            rfl
          · rw [if_neg hk, if_neg hk]
            exact h k2
        | null => exact h k2
        | arr xs => exact h k2
        | obj fs2 => exact h k2
    | null => exact h k2
    | bool b => exact h k2
    | num n => exact h k2
    | str s => exact h k2
    | arr xs => exact h k2

/-- Entries that do not carry an integer or string id are invisible at
every decimal lookup key. -/
theorem indexFold_filter (n : Int) : ∀ (ps : List Json) (idx1 idx2 : String → Option Json),
    idx1 (pyIntStr n) = idx2 (pyIntStr n) →
    (ps.foldl indexStep idx1) (pyIntStr n)
      = ((ps.filter isCacheIndexed).foldl indexStep idx2) (pyIntStr n)
  | [], _, _, h => h
  | e :: ps, idx1, idx2, h => by
    by_cases hc : isCacheIndexed e = true
    · rw [List.filter_cons_of_pos hc]
      simp only [List.foldl_cons]
      refine indexFold_filter n ps _ _ ?_
      cases e with
      | obj fs =>
        rw [indexStep_eq, indexStep_eq]
        cases hcase : lookupFields fs "id" with
        | none => exact h
        | some v =>
          cases v with
          | num m =>
            show (if pyIntStr n = pyIntStr m then some (Json.obj fs) else idx1 (pyIntStr n))
              = (if pyIntStr n = pyIntStr m then some (Json.obj fs) else idx2 (pyIntStr n))
            by_cases hk : pyIntStr n = pyIntStr m
            · rw [if_pos hk, if_pos hk]
            · rw [if_neg hk, if_neg hk]
              exact h
          | str s =>
            show (if pyIntStr n = s then some (Json.obj fs) else idx1 (pyIntStr n))
              = (if pyIntStr n = s then some (Json.obj fs) else idx2 (pyIntStr n))
            by_cases hk : pyIntStr n = s
            · rw [if_pos hk, if_pos hk]
            · rw [if_neg hk, if_neg hk]
              exact h
          | bool b =>
            show (if pyIntStr n = pyBoolStr b then some (Json.obj fs) else idx1 (pyIntStr n))
              = (if pyIntStr n = pyBoolStr b then some (Json.obj fs) else idx2 (pyIntStr n))
            rw [if_neg (pyIntStr_ne_pyBoolStr n b), if_neg (pyIntStr_ne_pyBoolStr n b)]
            exact h
          | null => exact h
          | arr xs => exact h
          | obj fs2 => exact h
      | null => exact h
      | bool b => exact h
      | num m => exact h
      | str s => exact h
      | arr xs => exact h
    · rw [List.filter_cons_of_neg (by simpa using hc)]
      refine indexFold_filter n ps _ _ ?_
      cases e with
      | obj fs =>
        simp only [isCacheIndexed] at hc
        rw [indexStep_eq]
        cases hcase : lookupFields fs "id" with
        | none => exact h
        | some v =>
          rw [hcase] at hc
          cases v with
          | num m => simp at hc
          | str s => simp at hc
          | bool b =>
            show (if pyIntStr n = pyBoolStr b then some (Json.obj fs) else idx1 (pyIntStr n))
              = idx2 (pyIntStr n)
            rw [if_neg (pyIntStr_ne_pyBoolStr n b)]
            exact h
          | null => exact h
          | arr xs => exact h
          | obj fs2 => exact h
      | null => exact h
      | bool b => exact h
      | num m => exact h
      | str s => exact h
      | arr xs => exact h

/-- Corollary of `indexFold_norm` at the empty initial index. -/
theorem buildIndex_norm (ps : List Json) (k : String) :
    buildIndex (ps.map normEntry) k = Option.map normEntry (buildIndex ps k) := by
  unfold buildIndex
  exact indexFold_norm ps (fun _ => none) (fun _ => none) (fun _ => rfl) k

/-- Corollary of `indexFold_filter` at the empty initial index. -/
theorem buildIndex_filter (ps : List Json) (n : Int) :
    buildIndex ps (pyIntStr n) = buildIndex (ps.filter isCacheIndexed) (pyIntStr n) := by
  unfold buildIndex
  exact indexFold_filter n ps (fun _ => none) (fun _ => none) rfl

/-- C10: during merge, prior entries are indexed by the string form of
their id and fresh posts are looked up by `str(message_id)`: replacing
any prior integer id by the equal decimal JSON string changes nothing in
the merged feed, and prior entries that are not objects, or whose id is
neither an integer nor a string (in Python's sense, where a JSON boolean
counts as `int` but is keyed under `"True"`/`"False"`, unreachable from
any decimal id), never affect the merged feed. -/
theorem prior_id_forms_and_junk_ignored (digest openaiFn argosFn : String → String)
    (apiKey : Bool) (now channel : String) (posts : List TgPost) (ps : List Json)
    (translator openai_model : String) :
    build_feed digest openaiFn argosFn apiKey now channel posts
        [("posts", Json.arr (ps.map normEntry))] translator openai_model
      = build_feed digest openaiFn argosFn apiKey now channel posts
        [("posts", Json.arr ps)] translator openai_model
    ∧ build_feed digest openaiFn argosFn apiKey now channel posts
        [("posts", Json.arr (ps.filter isCacheIndexed))] translator openai_model
      = build_feed digest openaiFn argosFn apiKey now channel posts
        [("posts", Json.arr ps)] translator openai_model := by
  constructor
  · simp only [build_feed]
    have hex : existingPosts [("posts", Json.arr (ps.map normEntry))] = ps.map normEntry := rfl
    have hex2 : existingPosts [("posts", Json.arr ps)] = ps := rfl
    rw [hex, hex2]
    have hpp : ∀ p ∈ posts,
        processPost openaiFn argosFn (effectiveTranslator translator apiKey)
          (translationKeyOf (effectiveTranslator translator apiKey) openai_model)
          ((buildIndex (ps.map normEntry) (pyIntStr p.message_id)).getD (Json.obj []))
          (content_hash digest p) p
        = processPost openaiFn argosFn (effectiveTranslator translator apiKey)
          (translationKeyOf (effectiveTranslator translator apiKey) openai_model)
          ((buildIndex ps (pyIntStr p.message_id)).getD (Json.obj []))
          (content_hash digest p) p := by
      intro p _
      rw [buildIndex_norm]
      cases hcase : buildIndex ps (pyIntStr p.message_id) with
      | none => rfl
      | some e =>
        simp only [Option.map_some', Option.getD_some]
        exact processPost_congr_existing openaiFn argosFn _ _ _ p
          (fun k hk => jget_normEntry_ne e k hk)
    rw [List.map_congr_left hpp]
  · simp only [build_feed]
    have hex : existingPosts [("posts", Json.arr (ps.filter isCacheIndexed))]
        = ps.filter isCacheIndexed := rfl
    have hex2 : existingPosts [("posts", Json.arr ps)] = ps := rfl
    rw [hex, hex2]
    have hpp : ∀ p ∈ posts,
        processPost openaiFn argosFn (effectiveTranslator translator apiKey)
          (translationKeyOf (effectiveTranslator translator apiKey) openai_model)
          ((buildIndex (ps.filter isCacheIndexed) (pyIntStr p.message_id)).getD (Json.obj []))
          (content_hash digest p) p
        = processPost openaiFn argosFn (effectiveTranslator translator apiKey)
          (translationKeyOf (effectiveTranslator translator apiKey) openai_model)
          ((buildIndex ps (pyIntStr p.message_id)).getD (Json.obj []))
          (content_hash digest p) p := by
      intro p _
      rw [← buildIndex_filter ps p.message_id]
    rw [List.map_congr_left hpp]

end TgFeed
